import Mathlib

/-!
Shallow embedding of the neural-network core of the nnVisualiser repository
(src/core/Neuron.cpp, src/core/Layer.cpp, src/core/NeuralNetwork.cpp and the
headers include/core/Types.hpp, include/core/Neuron.hpp, include/core/Layer.hpp,
include/core/NeuralNetwork.hpp, include/utils/Common.hpp).

Modelling conventions:
* the C++ scalar type `T` (float/double) is modelled as `ℚ`; the transcendental
  activation/loss libraries are abstracted behind an explicit semantics
  parameter (`ActSem`) where a claim does not depend on their values;
* `NNV_ASSERT` is plain `assert` (Common.hpp lines 68-76): it aborts the process
  in debug builds and is a no-op in release builds (where the code following a
  failed check performs out-of-bounds vector reads).  We model the checked
  (debug) semantics: an operation containing asserts returns
  `Except CrashError α`, and a failed assert is `Except.error .assertFail`;
* stateful methods become pure functions returning the updated object;
* the process-wide RNG draws used by dropout are supplied as an explicit
  oracle argument (`draw`), one rational per generated number.
-/

namespace NNV

/-- Activation tags; ordinals follow `enum class ActivationType` (Types.hpp lines 48-58). -/
inductive ActivationType where
  | none
  | relu
  | sigmoid
  | tanh
  | leakyReLU
  | elu
  | swish
  | gelu
  | softmax
deriving DecidableEq

/-- Ordinal written by `static_cast<int>` on serialization. -/
def ActivationType.toWire : ActivationType → Nat
  | .none => 0
  | .relu => 1
  | .sigmoid => 2
  | .tanh => 3
  | .leakyReLU => 4
  | .elu => 5
  | .swish => 6
  | .gelu => 7
  | .softmax => 8

/-- Inverse of the serialization cast (`static_cast<ActivationType>(int)`).
Out-of-range ordinals never arise from `toJson` output; they are mapped to
`.none` here only to keep the function total. -/
def ActivationType.ofWire : Nat → ActivationType
  | 0 => .none
  | 1 => .relu
  | 2 => .sigmoid
  | 3 => .tanh
  | 4 => .leakyReLU
  | 5 => .elu
  | 6 => .swish
  | 7 => .gelu
  | 8 => .softmax
  | _ => .none

/-- Loss tags; ordinals follow `enum class LossType` (Types.hpp lines 69-75). -/
inductive LossType where
  | meanSquaredError
  | crossEntropy
  | binaryCrossEntropy
  | huber
  | focalLoss
deriving DecidableEq

def LossType.toWire : LossType → Nat
  | .meanSquaredError => 0
  | .crossEntropy => 1
  | .binaryCrossEntropy => 2
  | .huber => 3
  | .focalLoss => 4

def LossType.ofWire : Nat → LossType
  | 0 => .meanSquaredError
  | 1 => .crossEntropy
  | 2 => .binaryCrossEntropy
  | 3 => .huber
  | _ => .focalLoss

/-- Optimizer tags; ordinals follow `enum class OptimizerType` (Types.hpp lines 61-66). -/
inductive OptimizerType where
  | sgd
  | adam
  | rmsprop
  | adagrad
deriving DecidableEq

def OptimizerType.toWire : OptimizerType → Nat
  | .sgd => 0
  | .adam => 1
  | .rmsprop => 2
  | .adagrad => 3

def OptimizerType.ofWire : Nat → OptimizerType
  | 0 => .sgd
  | 1 => .adam
  | 2 => .rmsprop
  | _ => .adagrad

/-- One computational unit (class `Neuron`, Neuron.hpp / Neuron.cpp). -/
structure Neuron where
  id : Nat
  activation : ℚ
  bias : ℚ
  weightedInput : ℚ
  gradient : ℚ
  delta : ℚ
  trainable : Bool
  name : String
  inputWeights : List ℚ
deriving DecidableEq

/-- The default-constructed neuron `Neuron(0)` (Neuron.cpp lines 14-25):
all scalars zero, trainable, empty name, no incoming weights. -/
def Neuron.mkDefault : Neuron :=
  { id := 0, activation := 0, bias := 0, weightedInput := 0, gradient := 0,
    delta := 0, trainable := true, name := "", inputWeights := [] }

/-- A layer (class `Layer`, Layer.hpp / Layer.cpp): ordered units plus the
shared activation tag, dropout rate, trainable flag and dropout mask. -/
structure Layer where
  neurons : List Neuron
  name : String
  activationType : ActivationType
  dropoutRate : ℚ
  trainable : Bool
  dropoutMask : List Bool
deriving DecidableEq

/-- The network (class `NeuralNetwork`, NeuralNetwork.hpp / NeuralNetwork.cpp).
The three training-state atomics become plain fields of the pure state. -/
structure NeuralNetwork where
  name : String
  learningRate : ℚ
  lossType : LossType
  optimizerType : OptimizerType
  layers : List Layer
  isTraining : Bool
  shouldStop : Bool
  trainingProgress : ℚ
deriving DecidableEq

/-- Outcome of a failed `NNV_ASSERT` under debug semantics (process abort). -/
inductive CrashError where
  | assertFail
deriving DecidableEq

/-- `NNV_ASSERT(cond)` in a debug build: continue when the condition holds,
abort otherwise (Common.hpp lines 68-76). -/
def nnvAssert (b : Bool) : Except CrashError Unit :=
  if b then .ok () else .error .assertFail

/-- `Layer::getSize()`: number of units. -/
def Layer.getSize (L : Layer) : Nat := L.neurons.length

/-- `Layer::getActivations()` (Layer.cpp lines 49-59). -/
def Layer.getActivations (L : Layer) : List ℚ := L.neurons.map (fun n => n.activation)

/-- `Layer::setActivations` (Layer.cpp lines 61-68): asserts the size matches,
then writes each unit activation. -/
def Layer.setActivations (L : Layer) (xs : List ℚ) : Except CrashError Layer := do
  nnvAssert (xs.length == L.neurons.length)
  .ok { L with neurons := L.neurons.zipWith (fun n x => { n with activation := x }) xs }

/-- The weighted-sum loop body of `Layer::forward` (Layer.cpp lines 126-131):
`Σ_i inputs[i] * weights[i]`, iterated over the input indices.  The preceding
assert guarantees both vectors have the same length on the non-aborting path. -/
def weightedSum (inputs weights : List ℚ) : ℚ :=
  (List.zipWith (fun x w => x * w) inputs weights).sum

/-- `Layer::forward` (Layer.cpp lines 118-134): asserts the layer is non-empty,
then for every unit asserts the weight-vector length equals the input length and
stores the weighted sum as the unit weighted input. -/
def Layer.forward (L : Layer) (inputs : List ℚ) : Except CrashError Layer := do
  nnvAssert (!L.neurons.isEmpty)
  let ns ← L.neurons.mapM (fun n => do
    nnvAssert (n.inputWeights.length == inputs.length)
    .ok { n with weightedInput := weightedSum inputs n.inputWeights })
  .ok { L with neurons := ns }

/-- Abstract semantics of the scalar numeric library: `scalar` stands for
`ActivationFactory::getFunction<T>` (one real function per tag) and `expF` for
`std::exp` as used by `activation::softmax`.  The claims proved below do not
depend on the numeric values of these functions. -/
structure ActSem where
  scalar : ActivationType → ℚ → ℚ
  expF : ℚ → ℚ

/-- `activation::softmax` (ActivationFunctions.hpp lines 231-250): subtract the
maximum, exponentiate, normalize by the sum.  The source dereferences
`max_element` of the input and is therefore only defined for non-empty vectors;
the `[]` branch here is unreachable from the call site proved about. -/
def softmaxQ (expF : ℚ → ℚ) : List ℚ → List ℚ
  | [] => []
  | x :: xs =>
    let maxVal := (x :: xs).foldl max x
    let exps := (x :: xs).map (fun v => expF (v - maxVal))
    let sum := exps.sum
    exps.map (fun e => e / sum)

/-- `Layer::applyActivation` (Layer.cpp lines 136-158): softmax is computed once
over the whole vector of `weightedInput + bias`; every other tag is applied
per-unit via `Neuron::applyActivation` (Neuron.cpp lines 35-38), which sets
`activation = f(weightedInput + bias)`. -/
def Layer.applyActivation (L : Layer) (sem : ActSem) : Layer :=
  if L.activationType = .softmax then
    let out := softmaxQ sem.expF (L.neurons.map (fun n => n.weightedInput + n.bias))
    { L with neurons := L.neurons.zipWith (fun n a => { n with activation := a }) out }
  else
    { L with neurons := L.neurons.map (fun n =>
        { n with activation := sem.scalar L.activationType (n.weightedInput + n.bias) }) }

/-- `Layer::applyDropout` (Layer.cpp lines 160-185).  When not training or the
rate is non-positive the mask is refilled with `true` and activations are left
alone.  Otherwise one uniform draw per mask slot decides survival: masked units
get activation 0, survivors are scaled by `1/keepProb`.  `draw i` is the value
produced by `dist(gen)` for slot `i`; the loop runs over the mask indices and
only touches units at those indices. -/
def Layer.applyDropout (L : Layer) (training : Bool) (draw : Nat → ℚ) : Layer :=
  if training = false ∨ L.dropoutRate ≤ 0 then
    { L with dropoutMask := List.replicate L.dropoutMask.length true }
  else
    let keepProb : ℚ := 1 - L.dropoutRate
    { L with
      dropoutMask := (List.range L.dropoutMask.length).map (fun i => decide (draw i < keepProb)),
      neurons := L.neurons.mapIdx (fun i n =>
        if i < L.dropoutMask.length then
          if draw i < keepProb then { n with activation := n.activation / keepProb }
          else { n with activation := 0 }
        else n) }

/-- `Layer::updateWeights` (Layer.cpp lines 209-233): early return for a
non-trainable layer; otherwise per unit assert the weight-vector length equals
the previous-layer activation count, subtract `lr * delta * prevAct_k` from each
weight and `lr * delta` from the bias. -/
def Layer.updateWeights (L : Layer) (learningRate : ℚ) (prevLayerActivations : List ℚ) :
    Except CrashError Layer :=
  if L.trainable = false then .ok L
  else do
    let ns ← L.neurons.mapM (fun n => do
      nnvAssert (n.inputWeights.length == prevLayerActivations.length)
      .ok { n with
        inputWeights :=
          List.zipWith (fun w a => w - learningRate * n.delta * a)
            n.inputWeights prevLayerActivations,
        bias := n.bias - learningRate * n.delta })
    .ok { L with neurons := ns }

/-- The `Layer(size, activation, name)` constructor (Layer.cpp lines 17-28):
`size` default-constructed neurons with ids 0..size-1, dropout rate 0,
trainable, mask all true.  `NeuralNetwork::fromJson` builds the temporary
`Layer<T>(1)` with this constructor (activation defaults to ReLU, name to ""). -/
def Layer.construct (size : Nat) (activation : ActivationType) (name : String) : Layer :=
  { neurons := (List.range size).map (fun i => { Neuron.mkDefault with id := i }),
    name := name,
    activationType := activation,
    dropoutRate := 0,
    trainable := true,
    dropoutMask := List.replicate size true }

/-- The persisted form of one neuron: the nine fields written by
`Neuron::toJson` (Neuron.cpp lines 46-60), all always present. -/
structure NeuronDoc where
  id : Nat
  activation : ℚ
  bias : ℚ
  weightedInput : ℚ
  gradient : ℚ
  delta : ℚ
  trainable : Bool
  name : String
  inputWeights : List ℚ
deriving DecidableEq

/-- The persisted form of one layer, written by `Layer::toJson`
(Layer.cpp lines 265-280).  The activation tag is stored as its wire ordinal. -/
structure LayerDoc where
  name : String
  size : Nat
  activationType : Nat
  dropoutRate : ℚ
  trainable : Bool
  neurons : List NeuronDoc
deriving DecidableEq

/-- The persisted form of a network, written by `NeuralNetwork::toJson`
(NeuralNetwork.cpp lines 370-385). -/
structure NetworkDoc where
  name : String
  learningRate : ℚ
  lossType : Nat
  optimizerType : Nat
  layers : List LayerDoc
deriving DecidableEq

/-- `Neuron::toJson` (Neuron.cpp lines 46-60). -/
def Neuron.toJson (n : Neuron) : NeuronDoc :=
  { id := n.id, activation := n.activation, bias := n.bias,
    weightedInput := n.weightedInput, gradient := n.gradient, delta := n.delta,
    trainable := n.trainable, name := n.name, inputWeights := n.inputWeights }

/-- `Neuron::fromJson` (Neuron.cpp lines 63-99), applied to the pre-state `n`.
Every `contains` guard in the source passes on a document produced by
`toJson`, so each field is overwritten from the document. -/
def Neuron.fromJson (n : Neuron) (d : NeuronDoc) : Neuron :=
  { n with
    id := d.id, activation := d.activation, bias := d.bias,
    weightedInput := d.weightedInput, gradient := d.gradient, delta := d.delta,
    trainable := d.trainable, name := d.name, inputWeights := d.inputWeights }

/-- `Layer::toJson` (Layer.cpp lines 265-280): the stored `size` is the neuron
count, and the tag is serialized as its ordinal. -/
def Layer.toJson (L : Layer) : LayerDoc :=
  { name := L.name,
    size := L.neurons.length,
    activationType := L.activationType.toWire,
    dropoutRate := L.dropoutRate,
    trainable := L.trainable,
    neurons := L.neurons.map Neuron.toJson }

/-- The `dropoutMask_.resize(n, true)` call in `Layer::fromJson`
(Layer.cpp line 311): keep the first `n` entries, pad with `true`. -/
def resizeMask (m : List Bool) (n : Nat) : List Bool :=
  m.take n ++ List.replicate (n - m.length) true

/-- `Layer::fromJson` (Layer.cpp lines 283-313) applied to the pre-state `L`:
name, activation tag, dropout rate and trainable flag are read back; the
neuron list is cleared and rebuilt, each neuron default-constructed and then
loaded from its document; the dropout mask is resized.  The stored `size`
field is not consulted. -/
def Layer.fromJson (L : Layer) (d : LayerDoc) : Layer :=
  let ns := d.neurons.map (fun nd => Neuron.fromJson Neuron.mkDefault nd)
  { L with
    name := d.name,
    activationType := ActivationType.ofWire d.activationType,
    dropoutRate := d.dropoutRate,
    trainable := d.trainable,
    neurons := ns,
    dropoutMask := resizeMask L.dropoutMask ns.length }

/-- `NeuralNetwork::toJson` (NeuralNetwork.cpp lines 370-385). -/
def NeuralNetwork.toJson (net : NeuralNetwork) : NetworkDoc :=
  { name := net.name,
    learningRate := net.learningRate,
    lossType := net.lossType.toWire,
    optimizerType := net.optimizerType.toWire,
    layers := net.layers.map Layer.toJson }

/-- `NeuralNetwork::fromJson` (NeuralNetwork.cpp lines 388-418) applied to the
pre-state `net`: name, learning rate and both tags are read back, and the
layer list is cleared and rebuilt, each layer starting from the temporary
`Layer<T>(1)` and then loaded from its document.  The training-state flags are
untouched. -/
def NeuralNetwork.fromJson (net : NeuralNetwork) (d : NetworkDoc) : NeuralNetwork :=
  { net with
    name := d.name,
    learningRate := d.learningRate,
    lossType := LossType.ofWire d.lossType,
    optimizerType := OptimizerType.ofWire d.optimizerType,
    layers := d.layers.map (fun ld => Layer.fromJson (Layer.construct 1 .relu "") ld) }

/-- The inner loop of `NeuralNetwork::forward` (NeuralNetwork.cpp lines
144-149): starting from the previous layer activations, run
`forward`, `applyActivation`, `applyDropout` on each remaining layer in order,
threading each layer output into the next.  Returns the updated layers
together with the final activation vector (the activations of the last
processed layer, or `prevActs` itself when no layer remains). -/
def forwardLayers (sem : ActSem) (training : Bool) (draws : Nat → Nat → ℚ) :
    List Layer → List ℚ → Nat → Except CrashError (List Layer × List ℚ)
  | [], prevActs, _ => .ok ([], prevActs)
  | L :: rest, prevActs, i => do
    let L1 ← L.forward prevActs
    let L2 := L1.applyActivation sem
    let L3 := L2.applyDropout training (draws i)
    let r ← forwardLayers sem training draws rest L3.getActivations (i + 1)
    .ok (L3 :: r.1, r.2)

/-- `NeuralNetwork::forward` (NeuralNetwork.cpp lines 127-152): empty network
or an input length differing from the first layer size yields the empty
result (after logging) with the network unchanged; otherwise the input layer
activations are set and the remaining layers are processed in order, the
value returned being the last layer activations. -/
def NeuralNetwork.forward (net : NeuralNetwork) (inputs : List ℚ) (sem : ActSem)
    (draws : Nat → Nat → ℚ) : Except CrashError (List ℚ × NeuralNetwork) :=
  match net.layers with
  | [] => .ok ([], net)
  | L0 :: rest =>
    if inputs.length ≠ L0.getSize then .ok ([], net)
    else do
      let L0₁ ← L0.setActivations inputs
      let r ← forwardLayers sem net.isTraining draws rest L0₁.getActivations 1
      .ok (r.2, { net with layers := L0₁ :: r.1 })

/-- `NeuralNetwork::predict` (NeuralNetwork.cpp lines 319-328): remember the
training flag, clear it (disabling dropout), run `forward`, restore the flag. -/
def NeuralNetwork.predict (net : NeuralNetwork) (inputs : List ℚ) (sem : ActSem)
    (draws : Nat → Nat → ℚ) : Except CrashError (List ℚ × NeuralNetwork) := do
  let wasTraining := net.isTraining
  let r ← NeuralNetwork.forward { net with isTraining := false } inputs sem draws
  .ok (r.1, { r.2 with isTraining := wasTraining })

/-- The `std::max_element` then `std::distance` idiom of
`NeuralNetwork::computeAccuracy` (NeuralNetwork.cpp lines 492-496):
index of the first maximal element; 0 for the empty vector
(`max_element` returns the end iterator, at distance 0 from begin).
The accumulator keeps the best value seen, its index, and the index of the
element under examination; the best is replaced only on a strictly greater
value, so the first maximum wins. -/
def maxElementIdxGo (best : ℚ) (bestIdx : Nat) (i : Nat) : List ℚ → Nat
  | [] => bestIdx
  | x :: xs =>
    if best < x then maxElementIdxGo x i (i + 1) xs
    else maxElementIdxGo best bestIdx (i + 1) xs

def maxElementIdx : List ℚ → Nat
  | [] => 0
  | x :: xs => maxElementIdxGo x 0 1 xs

/-- The per-sample test of `NeuralNetwork::computeAccuracy` (NeuralNetwork.cpp
lines 483-500).  A single-output sample is thresholded: `prediction` is 1 when
the output exceeds 0.5 and 0 otherwise, and the sample counts as correct when
`|prediction - target| < 0.5`.  Any other output arity is compared by first
maximal index.  The source reads `targets[i][0]` without a bounds check
(undefined for an empty target vector); `headD 0` stands in for that read and
every theorem below only instantiates it where the source read is defined. -/
def sampleCorrect (output target : List ℚ) : Bool :=
  match output with
  | [o] =>
    let prediction : ℚ := if (1 : ℚ) / 2 < o then 1 else 0
    decide (|prediction - target.headD 0| < 1 / 2)
  | _ => decide (maxElementIdx output = maxElementIdx target)

/-- The counting loop of `NeuralNetwork::computeAccuracy` (NeuralNetwork.cpp
lines 481-500), walking both lists in step. -/
def countCorrect : List (List ℚ) → List (List ℚ) → Nat
  | o :: os, t :: ts => (if sampleCorrect o t then 1 else 0) + countCorrect os ts
  | _, _ => 0

/-- `NeuralNetwork::computeAccuracy` (NeuralNetwork.cpp lines 474-503): 0 for
empty or mismatched datasets, otherwise the fraction of correct samples. -/
def computeAccuracy (outputs targets : List (List ℚ)) : ℚ :=
  if outputs.isEmpty ∨ targets.isEmpty ∨ outputs.length ≠ targets.length then 0
  else (countCorrect outputs targets : ℚ) / (outputs.length : ℚ)

/-- The slicing loop of `NeuralNetwork::createBatches` (NeuralNetwork.cpp lines
540-547): `for (i = 0; i < inputs.size(); i += batchSize)`, each iteration
copying the half-open sample range `[i, min(i + batchSize, N))` out of both
datasets.  The loop has no other exit, so a `batchSize` of zero never advances
`i`; `fuel` bounds the number of iterations the approximation may take and
`none` means the loop has not finished within that bound.  The source slices
`targets` with indices computed from `inputs` (out of bounds if `targets` is
shorter; the theorems below only instantiate equal lengths, where `take`
matches the source slice exactly). -/
def createBatchesGo {α β : Type} (inputs : List α) (targets : List β) (batchSize : Nat) :
    Nat → Nat → Option (List (List α × List β))
  | i, 0 => if i < inputs.length then none else some []
  | i, fuel + 1 =>
    if i < inputs.length then
      let endIdx := min (i + batchSize) inputs.length
      let batchInputs := (inputs.drop i).take (endIdx - i)
      let batchTargets := (targets.drop i).take (endIdx - i)
      match createBatchesGo inputs targets batchSize (i + batchSize) fuel with
      | some rest => some ((batchInputs, batchTargets) :: rest)
      | none => none
    else some []

/-- `NeuralNetwork::createBatches` (NeuralNetwork.cpp lines 533-550).  With a
positive batch size the loop makes at most `inputs.length` iterations, so fuel
`inputs.length + 1` is enough for the approximation to be exact; `none` means
the source loop does not terminate. -/
def createBatches {α β : Type} (inputs : List α) (targets : List β) (batchSize : Nat) :
    Option (List (List α × List β)) :=
  createBatchesGo inputs targets batchSize 0 (inputs.length + 1)

/-- The epoch loop of `NeuralNetwork::train` (NeuralNetwork.cpp lines 243-286):
`for (epoch = 0; epoch < epochs && !shouldStop_.load(); ++epoch)`.
`sched e` is the value the atomic load of `shouldStop_` yields at the boundary
check before epoch `e` (the flag is written concurrently by `stopTraining()`,
NeuralNetwork.hpp line 253).  Each epoch shuffles the data (a permutation, so
both dataset lengths are unchanged) and then slices it with `createBatches`,
whose loop is the only non-terminating step; `fuel` bounds its iterations as in
`createBatchesGo` and `none` means some epoch body never finished.  The numeric
work of the epoch (batch losses, accuracy, progress stores, callback) does not
affect control flow and is abstracted away; the returned list collects the
indices of the epochs that ran to completion. -/
def NeuralNetwork.trainLoop (inputs targets : List (List ℚ)) (batchSize epochs : Nat)
    (sched : Nat → Bool) (fuel : Nat) (e : Nat) : Option (List Nat) :=
  if _h : e < epochs ∧ sched e = false then
    match createBatchesGo inputs targets batchSize 0 fuel with
    | none => none
    | some _ =>
      match NeuralNetwork.trainLoop inputs targets batchSize epochs sched fuel (e + 1) with
      | none => none
      | some rest => some (e :: rest)
  else some []
termination_by epochs - e
decreasing_by omega

/-- `NeuralNetwork::train` (NeuralNetwork.cpp lines 222-293): run the epoch
loop from epoch 0, then unconditionally store `isTraining = false` and
`trainingProgress = 1` (lines 288-289) and return.  The result carries the
completed epoch indices and the two stores visible to callers through
`isTraining()` and `getTrainingProgress()`; `none` means the call never
returns. -/
def NeuralNetwork.train (inputs targets : List (List ℚ)) (epochs batchSize : Nat)
    (sched : Nat → Bool) (fuel : Nat) : Option (List Nat × Bool × ℚ) :=
  match NeuralNetwork.trainLoop inputs targets batchSize epochs sched fuel 0 with
  | none => none
  | some es => some (es, false, 1)

/-- Reference chunking function used to reason about `createBatchesGo`: split
into slices of `B` consecutive elements (the `x ::` pattern makes the length
strictly decrease for every `B`; for `B ≥ 1` the head chunk is `l.take B` and
the rest is chunked from `l.drop B`). -/
def chunks {α : Type} (B : Nat) : List α → List (List α)
  | [] => []
  | x :: xs => (x :: xs.take (B - 1)) :: chunks B (xs.drop (B - 1))
termination_by l => l.length
decreasing_by simp; omega

/-- Modelled from the claim wording of C6 (spec section 4.4.1): a single-output
sample is said correct when `|round(output) - target| < 0.5`; multi-output
samples compare first-maximum indices.  This is the claim side of the
comparison, not the source side. -/
def claimSampleCorrect (output target : List ℚ) : Bool :=
  match output with
  | [o] => decide (|((round o : ℤ) : ℚ) - target.headD 0| < 1 / 2)
  | _ => decide (maxElementIdx output = maxElementIdx target)

/-- Claim-side accuracy for C6: fraction of samples the claim counts correct. -/
def claimAccuracy (outputs targets : List (List ℚ)) : ℚ :=
  if outputs.isEmpty ∨ targets.isEmpty ∨ outputs.length ≠ targets.length then 0
  else (((outputs.zip targets).countP (fun p => claimSampleCorrect p.1 p.2) : ℚ)) /
    (outputs.length : ℚ)

/-- Projection of a layer onto the data the persistence claim C1 talks about:
unit count (the per-layer size), activation tag, dropout rate, trainable flag,
and for every unit its weight vector and bias. -/
def Layer.persistSig (L : Layer) : Nat × ActivationType × ℚ × Bool × List (List ℚ × ℚ) :=
  (L.neurons.length, L.activationType, L.dropoutRate, L.trainable,
   L.neurons.map (fun n => (n.inputWeights, n.bias)))

/-- A one-unit layer whose unit carries two weights, used as the concrete
mismatch example for C3. -/
def mismatchLayer : Layer :=
  { neurons := [{ Neuron.mkDefault with inputWeights := [1, 1] }],
    name := "out", activationType := .relu, dropoutRate := 0, trainable := true,
    dropoutMask := [true] }

/-- A one-unit layer with a single weight, used by the C3 witness. -/
def singleWeightLayer : Layer :=
  { neurons := [{ Neuron.mkDefault with inputWeights := [1] }],
    name := "out", activationType := .relu, dropoutRate := 0, trainable := true,
    dropoutMask := [true] }

/-- The weight-shape invariant of the layer chain starting after a layer of
size `m` (spec section 3): each successive layer is non-empty and each of its
units carries one weight per unit of its predecessor. -/
def layersOkFrom (m : Nat) : List Layer → Prop
  | [] => True
  | L :: rest => L.neurons ≠ [] ∧ (∀ n ∈ L.neurons, n.inputWeights.length = m) ∧
      layersOkFrom L.neurons.length rest

/-- The network invariant (spec section 3): every non-input layer is non-empty
and dimensioned against its predecessor.  The input layer is unconstrained
(its units carry no meaningful weights and are driven directly). -/
def NeuralNetwork.validDims (net : NeuralNetwork) : Prop :=
  match net.layers with
  | [] => True
  | L0 :: rest => layersOkFrom L0.getSize rest

/-- Size of the last layer of the list, or the default `d` when it is empty. -/
def lastSizeD : List Layer → Nat → Nat
  | [], d => d
  | L :: rest, _ => lastSizeD rest L.getSize

/-- The result of the write loop of `Layer::setActivations`: every unit
activation replaced by the corresponding entry of `xs`. -/
def Layer.withActivationsSet (L : Layer) (xs : List ℚ) : Layer :=
  { L with neurons := L.neurons.zipWith (fun n x => { n with activation := x }) xs }

/-- A concrete activation semantics (identity functions) for evaluating the
model at specific networks; the claims checked at these networks do not
depend on the numeric library. -/
def idActSem : ActSem := { scalar := fun _ x => x, expF := fun x => x }

/-- A concrete dropout oracle drawing 0 everywhere. -/
def zeroDraws : Nat → Nat → ℚ := fun _ _ => 0

/-- A one-unit input layer (its unit carries no weights). -/
def inputLayer1 : Layer :=
  { neurons := [Neuron.mkDefault], name := "in", activationType := .none,
    dropoutRate := 0, trainable := true, dropoutMask := [true] }

/-- A network violating the dimension invariant: the second layer unit has no
weights although the first layer has one unit. -/
def badNetC2 : NeuralNetwork :=
  { name := "bad", learningRate := 1, lossType := .meanSquaredError,
    optimizerType := .sgd,
    layers := [inputLayer1,
      { neurons := [Neuron.mkDefault], name := "out", activationType := .relu,
        dropoutRate := 0, trainable := true, dropoutMask := [true] }],
    isTraining := false, shouldStop := false, trainingProgress := 0 }

/-- A well-formed 1-1 network used by the C2 and C4 witnesses: one input unit
and one output unit with a single weight. -/
def goodNet11 : NeuralNetwork :=
  { name := "good", learningRate := 1, lossType := .meanSquaredError,
    optimizerType := .sgd,
    layers := [inputLayer1,
      { neurons := [{ Neuron.mkDefault with inputWeights := [1] }], name := "out",
        activationType := .relu, dropoutRate := 0, trainable := true,
        dropoutMask := [true] }],
    isTraining := false, shouldStop := false, trainingProgress := 0 }

/-- Projection of a unit onto the data a dropout-free forward pass reads:
its weight vector and bias. -/
def Neuron.struct (n : Neuron) : List ℚ × ℚ := (n.inputWeights, n.bias)

/-- Projection of a layer onto the data a dropout-free forward pass reads:
the activation tag plus every unit weight vector and bias.  C4 states that
`predict` preserves this projection (in particular all weights and biases)
and that the inference output is a function of it. -/
def Layer.inferenceSig (L : Layer) : ActivationType × List (List ℚ × ℚ) :=
  (L.activationType, L.neurons.map Neuron.struct)

theorem activation_wire_roundtrip (t : ActivationType) : ActivationType.ofWire t.toWire = t := by
  cases t <;> rfl

theorem loss_wire_roundtrip (t : LossType) : LossType.ofWire t.toWire = t := by
  cases t <;> rfl

theorem optimizer_wire_roundtrip (t : OptimizerType) : OptimizerType.ofWire t.toWire = t := by
  cases t <;> rfl

theorem Neuron.fromJson_toJson (n : Neuron) :
    Neuron.fromJson Neuron.mkDefault n.toJson = n := by
  cases n
  rfl

theorem Layer.fromJson_toJson_sig (L₀ L : Layer) :
    (Layer.fromJson L₀ L.toJson).persistSig = L.persistSig := by
  simp [Layer.fromJson, Layer.toJson, Layer.persistSig, List.map_map,
    Function.comp_def, Neuron.fromJson_toJson, activation_wire_roundtrip]

/-- C1.  The persisted-document round trip `toJson` then `fromJson` restores
the layer count, every per-layer size, activation tag, dropout rate and
trainable flag, the learning rate, loss and optimizer tags, and every unit
weight vector and bias exactly.  `pre` is the arbitrary pre-state of the
network object `fromJson` is invoked on. -/
theorem NeuralNetwork.fromJson_toJson_roundtrip (net pre : NeuralNetwork) :
    (NeuralNetwork.fromJson pre net.toJson).layers.map Layer.persistSig =
        net.layers.map Layer.persistSig ∧
      (NeuralNetwork.fromJson pre net.toJson).learningRate = net.learningRate ∧
      (NeuralNetwork.fromJson pre net.toJson).lossType = net.lossType ∧
      (NeuralNetwork.fromJson pre net.toJson).optimizerType = net.optimizerType := by
  refine ⟨?_, ?_, ?_, ?_⟩
  · simp only [NeuralNetwork.fromJson, NeuralNetwork.toJson, List.map_map, Function.comp_def,
      Layer.fromJson_toJson_sig]
  · rfl
  · simp only [NeuralNetwork.fromJson, NeuralNetwork.toJson, loss_wire_roundtrip]
  · simp only [NeuralNetwork.fromJson, NeuralNetwork.toJson, optimizer_wire_roundtrip]

/-- Helper: a `mapM` over `Except` in which every element succeeds is the plain
`map` of the success values. -/
theorem List.mapM_ok_of_forall {α β : Type} (f : α → Except CrashError β) (g : α → β)
    (l : List α) (h : ∀ a ∈ l, f a = .ok (g a)) : l.mapM f = .ok (l.map g) := by
  induction l with
  | nil => rfl
  | cons a t ih =>
    rw [List.mapM_cons, h a (by simp)]
    rw [ih (fun b hb => h b (by simp [hb]))]
    rfl

/-- Helper: if a `mapM` over `Except` succeeds, every element succeeded. -/
theorem List.mapM_ok_forall {α β : Type} {f : α → Except CrashError β} :
    ∀ {l : List α} {l' : List β}, l.mapM f = .ok l' → ∀ a ∈ l, ∃ c, f a = .ok c := by
  intro l
  induction l with
  | nil => simp
  | cons a t ih =>
    intro l' h b hb
    rw [List.mapM_cons] at h
    match ha : f a with
    | .error e => rw [ha] at h; exact absurd h (by simp [Bind.bind, Except.bind])
    | .ok c =>
      rw [ha] at h
      match ht : t.mapM f with
      | .error e => rw [ht] at h; exact absurd h (by simp [Bind.bind, Except.bind])
      | .ok cs =>
        rcases List.mem_cons.mp hb with rfl | hbt
        · exact ⟨c, ha⟩
        · exact ih ht b hbt

/-- C7.  `Layer::updateWeights` on a non-trainable layer changes nothing, and
on a trainable layer whose unit weight vectors all have the length of the
previous-layer activation vector it subtracts `lr*delta*prevAct_k` from every
weight and `lr*delta` from every bias. -/
theorem Layer.updateWeights_spec (L : Layer) (lr : ℚ) (prev : List ℚ) :
    (L.trainable = false → L.updateWeights lr prev = .ok L) ∧
      (L.trainable = true →
        (∀ n ∈ L.neurons, n.inputWeights.length = prev.length) →
        L.updateWeights lr prev = .ok { L with neurons := L.neurons.map (fun n =>
          { n with
            inputWeights := List.zipWith (fun w a => w - lr * n.delta * a) n.inputWeights prev,
            bias := n.bias - lr * n.delta }) }) := by
  constructor
  · intro h
    simp [Layer.updateWeights, h]
  · intro ht hlen
    rw [Layer.updateWeights]
    simp only [ht]
    rw [List.mapM_ok_of_forall _ (fun n => { n with
        inputWeights := List.zipWith (fun w a => w - lr * n.delta * a) n.inputWeights prev,
        bias := n.bias - lr * n.delta }) L.neurons (fun n hn => by
      simp [nnvAssert, hlen n hn, Bind.bind, Except.bind])]
    simp [Bind.bind, Except.bind]

/-- Witness for C7 at a concrete layer: one trainable unit with weights
`[1, 2]`, bias 3, delta 1, previous activations `[1, 1]`, learning rate 1. -/
theorem Layer.updateWeights_spec_witness :
    let n : Neuron := { Neuron.mkDefault with inputWeights := [1, 2], bias := 3, delta := 1 }
    let L : Layer := { neurons := [n], name := "", activationType := .relu,
                       dropoutRate := 0, trainable := true, dropoutMask := [true] }
    L.updateWeights 1 [1, 1] = .ok { L with neurons := [{ n with
      inputWeights := [0, 1], bias := 2 }] } := by
  intro n L
  have h := (Layer.updateWeights_spec L 1 [1, 1]).2 rfl (by
    intro m hm
    simp only [L, n, List.mem_singleton] at hm
    simp [hm, Neuron.mkDefault])
  rw [h]
  norm_num [L, n, Neuron.mkDefault]

theorem sampleCorrect_eq (o t : List ℚ) :
    sampleCorrect o t =
      if o.length = 1 then
        decide (|(if (1 : ℚ) / 2 < o.headD 0 then (1 : ℚ) else 0) - t.headD 0| < 1 / 2)
      else decide (maxElementIdx o = maxElementIdx t) := by
  match o with
  | [] => rfl
  | [x] => rfl
  | x :: y :: r => rfl

theorem countCorrect_eq_countP :
    ∀ (os ts : List (List ℚ)),
      countCorrect os ts = (os.zip ts).countP (fun p => sampleCorrect p.1 p.2) := by
  intro os
  induction os with
  | nil => intro ts; cases ts <;> rfl
  | cons o os ih =>
    intro ts
    cases ts with
    | nil => rfl
    | cons t ts =>
      rw [show (o :: os).zip (t :: ts) = (o, t) :: os.zip ts from rfl, List.countP_cons]
      rw [countCorrect, ih ts]
      by_cases h : sampleCorrect o t <;> simp [h] <;> omega

/-- C6 (amended).  On a non-empty, equal-length dataset pair,
`computeAccuracy` is the number of correct samples divided by the sample
count, where a single-output sample is correct exactly when
`|(output > 0.5 ? 1 : 0) - target| < 0.5` (a strict threshold at 0.5, not a
rounding of the output) and any other sample is correct exactly when the
index of the first maximal output equals the index of the first maximal
target. -/
theorem computeAccuracy_spec (outputs targets : List (List ℚ))
    (h1 : outputs ≠ []) (h2 : targets ≠ []) (h3 : outputs.length = targets.length) :
    computeAccuracy outputs targets =
      (((outputs.zip targets).countP (fun p =>
        if p.1.length = 1 then
          decide (|(if (1 : ℚ) / 2 < p.1.headD 0 then (1 : ℚ) else 0) - p.2.headD 0| < 1 / 2)
        else decide (maxElementIdx p.1 = maxElementIdx p.2)) : ℚ)) /
        (outputs.length : ℚ) := by
  rw [computeAccuracy]
  rw [if_neg (by simp [h1, h2, h3])]
  rw [countCorrect_eq_countP]
  have : (fun (p : List ℚ × List ℚ) => sampleCorrect p.1 p.2) = (fun p =>
      if p.1.length = 1 then
        decide (|(if (1 : ℚ) / 2 < p.1.headD 0 then (1 : ℚ) else 0) - p.2.headD 0| < 1 / 2)
      else decide (maxElementIdx p.1 = maxElementIdx p.2)) := by
    funext p
    exact sampleCorrect_eq p.1 p.2
  rw [this]

/-- Witness for C6 (amended) at a concrete dataset: outputs `[[1]]`,
targets `[[1]]`, accuracy 1. -/
theorem computeAccuracy_spec_witness :
    computeAccuracy [[(1 : ℚ)]] [[(1 : ℚ)]] =
      ((([[(1 : ℚ)]].zip [[(1 : ℚ)]]).countP (fun p =>
        if p.1.length = 1 then
          decide (|(if (1 : ℚ) / 2 < p.1.headD 0 then (1 : ℚ) else 0) - p.2.headD 0| < 1 / 2)
        else decide (maxElementIdx p.1 = maxElementIdx p.2)) : ℚ)) /
        (([[(1 : ℚ)]] : List (List ℚ)).length : ℚ) :=
  computeAccuracy_spec [[1]] [[1]] (by simp) (by simp) rfl

/-- Counterexample to C6 as stated: at output `[0.5]`, target `[1]` the claim
counts the sample correct, because `|round(0.5) - 1| = 0 < 0.5`, so the
claimed accuracy is 1; the source thresholds strictly at 0.5
(`output > 0.5 ? 1 : 0`), predicts 0 and counts the sample wrong, so
`computeAccuracy` returns 0. -/
theorem computeAccuracy_round_counterexample :
    computeAccuracy [[(1 : ℚ) / 2]] [[(1 : ℚ)]] = 0 ∧
      claimAccuracy [[(1 : ℚ) / 2]] [[(1 : ℚ)]] = 1 := by
  constructor
  · rw [computeAccuracy, if_neg (by simp)]
    norm_num [countCorrect, sampleCorrect]
  · rw [claimAccuracy, if_neg (by simp)]
    norm_num [claimSampleCorrect, List.countP_cons, round_eq]

theorem chunks_nil {α : Type} (B : Nat) : chunks B ([] : List α) = [] := by
  simp [chunks]

theorem chunks_cons_eq {α : Type} (B : Nat) (hB : 1 ≤ B) (l : List α) (h : l ≠ []) :
    chunks B l = l.take B :: chunks B (l.drop B) := by
  match l with
  | [] => exact absurd rfl h
  | x :: xs =>
    obtain ⟨b, rfl⟩ : ∃ b, B = b + 1 := ⟨B - 1, by omega⟩
    simp only [chunks, Nat.add_sub_cancel, List.take_succ_cons, List.drop_succ_cons]

theorem chunks_eq_nil_iff {α : Type} (B : Nat) (l : List α) : chunks B l = [] ↔ l = [] := by
  match l with
  | [] => simp [chunks]
  | x :: xs => simp [chunks]

theorem chunks_length {α : Type} (B : Nat) (hB : 1 ≤ B) (l : List α) :
    (chunks B l).length = (l.length + B - 1) / B := by
  induction l using chunks.induct B with
  | case1 => simp [chunks, Nat.div_eq_of_lt (by omega : B - 1 < B)]
  | case2 x xs ih =>
    simp only [chunks, List.length_cons, ih, List.length_drop]
    rcases le_or_lt (xs.length + 1) B with h | h
    · rw [Nat.sub_eq_zero_of_le (by omega : xs.length ≤ B - 1)]
      rw [Nat.div_eq_of_lt (by omega : 0 + B - 1 < B)]
      have hdiv : (xs.length + 1 + B - 1) / B = 1 :=
        Nat.div_eq_of_lt_le (by omega) (by omega)
      omega
    · have h1 : xs.length - (B - 1) + B - 1 = xs.length := by omega
      have h2 : xs.length + 1 + B - 1 = xs.length + B := by omega
      rw [h1, h2, Nat.add_div_right _ (by omega : 0 < B)]

theorem chunks_flatten {α : Type} (B : Nat) (hB : 1 ≤ B) (l : List α) :
    (chunks B l).flatten = l := by
  induction l using chunks.induct B with
  | case1 => simp [chunks]
  | case2 x xs ih => simp [chunks, ih, List.take_append_drop]

theorem chunks_mem_length_le {α : Type} (B : Nat) (hB : 1 ≤ B) (l : List α) :
    ∀ c ∈ chunks B l, c.length ≤ B := by
  induction l using chunks.induct B with
  | case1 => simp [chunks]
  | case2 x xs ih =>
    intro c hc
    simp only [chunks, List.mem_cons] at hc
    rcases hc with rfl | hc
    · simp only [List.length_cons, List.length_take]
      omega
    · exact ih c hc

theorem chunks_dropLast_length {α : Type} (B : Nat) (hB : 1 ≤ B) (l : List α) :
    ∀ c ∈ (chunks B l).dropLast, c.length = B := by
  induction l using chunks.induct B with
  | case1 => simp [chunks]
  | case2 x xs ih =>
    intro c hc
    simp only [chunks] at hc
    rcases hr : chunks B (xs.drop (B - 1)) with _ | ⟨r, rs⟩
    · rw [hr] at hc
      simp at hc
    · rw [hr, List.dropLast_cons₂, List.mem_cons] at hc
      rcases hc with rfl | hc
      · have hne : xs.drop (B - 1) ≠ [] := by
          intro hnil
          rw [hnil, chunks_nil] at hr
          exact List.noConfusion hr
        have hlen : B - 1 ≤ xs.length := by
          by_contra hgt
          exact hne (List.drop_eq_nil_of_le (by omega))
        simp only [List.length_cons, List.length_take]
        omega
      · exact ih c (by rw [hr]; exact hc)

theorem zip_dropLast_fst_mem {α β : Type} :
    ∀ (a : List α) (c : List β), a.length = c.length →
      ∀ p ∈ (a.zip c).dropLast, p.1 ∈ a.dropLast := by
  intro a
  induction a with
  | nil => simp
  | cons x a2 ih =>
    intro c hlen p hp
    match c with
    | [] => simp at hlen
    | y :: c2 =>
      match a2, c2 with
      | [], c2 =>
        simp at hp
      | x2 :: a3, [] => simp at hlen
      | x2 :: a3, y2 :: c3 =>
        rw [List.zip_cons_cons, List.zip_cons_cons, List.dropLast_cons₂, List.mem_cons] at hp
        rw [List.dropLast_cons₂]
        rcases hp with rfl | hp
        · exact List.mem_cons_self _ _
        · have := ih (y2 :: c3) (by simpa using hlen) p (by rw [List.zip_cons_cons]; exact hp)
          exact List.mem_cons_of_mem _ this

theorem createBatchesGo_eq_chunks {α β : Type} (B : Nat) (hB : 1 ≤ B)
    (inputs : List α) (targets : List β) (ht : targets.length = inputs.length) :
    ∀ (fuel i : Nat), inputs.length - i ≤ fuel →
      createBatchesGo inputs targets B i fuel =
        some ((chunks B (inputs.drop i)).zip (chunks B (targets.drop i))) := by
  intro fuel
  induction fuel with
  | zero =>
    intro i hi
    have hle : ¬ i < inputs.length := by omega
    have hd : inputs.drop i = [] := List.drop_eq_nil_of_le (by omega)
    have hdt : targets.drop i = [] := List.drop_eq_nil_of_le (by omega)
    simp [createBatchesGo, hle, hd, hdt, chunks_nil]
  | succ fuel ih =>
    intro i hi
    by_cases hlt : i < inputs.length
    · have hdi : (inputs.drop i).length = inputs.length - i := List.length_drop i inputs
      have hdt : (targets.drop i).length = inputs.length - i := by
        rw [List.length_drop, ht]
      have hmin : min (i + B) inputs.length - i = min B (inputs.length - i) := by omega
      have htakeI : (inputs.drop i).take (min B (inputs.length - i)) = (inputs.drop i).take B := by
        rcases le_total B (inputs.length - i) with h | h
        · rw [min_eq_left h]
        · rw [min_eq_right h, ← hdi, List.take_length, List.take_of_length_le (by omega)]
      have htakeT : (targets.drop i).take (min B (inputs.length - i)) = (targets.drop i).take B := by
        rcases le_total B (inputs.length - i) with h | h
        · rw [min_eq_left h]
        · rw [min_eq_right h, ← hdt, List.take_length, List.take_of_length_le (by omega)]
      have hdropI : (inputs.drop i).drop B = inputs.drop (i + B) := by
        rw [List.drop_drop, Nat.add_comm]
      have hdropT : (targets.drop i).drop B = targets.drop (i + B) := by
        rw [List.drop_drop, Nat.add_comm]
      have hneI : inputs.drop i ≠ [] := by
        intro hnil
        rw [hnil] at hdi
        simp at hdi
        omega
      have hneT : targets.drop i ≠ [] := by
        intro hnil
        rw [hnil] at hdt
        simp at hdt
        omega
      rw [createBatchesGo, if_pos hlt]
      simp only [ih (i + B) (by omega), hmin, htakeI, htakeT,
        chunks_cons_eq B hB (inputs.drop i) hneI, chunks_cons_eq B hB (targets.drop i) hneT,
        hdropI, hdropT, List.zip_cons_cons]
    · have hd : inputs.drop i = [] := List.drop_eq_nil_of_le (by omega)
      have hdt : targets.drop i = [] := List.drop_eq_nil_of_le (by omega)
      simp [createBatchesGo, hlt, hd, hdt, chunks_nil]

theorem createBatches_eq_chunks {α β : Type} (B : Nat) (hB : 1 ≤ B)
    (inputs : List α) (targets : List β) (ht : targets.length = inputs.length) :
    createBatches inputs targets B =
      some ((chunks B inputs).zip (chunks B targets)) := by
  rw [createBatches, createBatchesGo_eq_chunks B hB inputs targets ht _ 0 (by omega)]
  simp

/-- C5.  For a non-empty dataset of `N` samples and a batch size `B ≥ 1`,
`createBatches` terminates and yields exactly `(N + B - 1) / B = ceil(N/B)`
batches; every batch holds at most `B` samples, every batch except possibly
the last holds exactly `B`, and concatenating the input (resp. target) sides
of the batches in order restores the input (resp. target) list, so every
sample is covered exactly once in the given order. -/
theorem createBatches_spec {α β : Type} (inputs : List α) (targets : List β) (B : Nat)
    (hN : 1 ≤ inputs.length) (hB : 1 ≤ B) (ht : targets.length = inputs.length) :
    ∃ bs, createBatches inputs targets B = some bs ∧
      bs.length = (inputs.length + B - 1) / B ∧
      (∀ b ∈ bs, b.1.length ≤ B ∧ b.2.length ≤ B) ∧
      (∀ b ∈ bs.dropLast, b.1.length = B) ∧
      (bs.map Prod.fst).flatten = inputs ∧
      (bs.map Prod.snd).flatten = targets := by
  have hlenI := chunks_length B hB inputs
  have hlenT := chunks_length B hB targets
  have hlen : (chunks B targets).length = (chunks B inputs).length := by rw [hlenI, hlenT, ht]
  refine ⟨(chunks B inputs).zip (chunks B targets),
    createBatches_eq_chunks B hB inputs targets ht, ?_, ?_, ?_, ?_, ?_⟩
  · rw [List.length_zip, hlen, min_self, hlenI]
  · intro b hb
    obtain ⟨h1, h2⟩ := List.of_mem_zip hb
    exact ⟨chunks_mem_length_le B hB inputs b.1 h1, chunks_mem_length_le B hB targets b.2 h2⟩
  · intro b hb
    exact chunks_dropLast_length B hB inputs b.1
      (zip_dropLast_fst_mem (chunks B inputs) (chunks B targets) hlen.symm b hb)
  · rw [List.map_fst_zip _ _ (by omega), chunks_flatten B hB]
  · rw [List.map_snd_zip _ _ (by omega), chunks_flatten B hB]

/-- Witness for C5 at `N = 3`, `B = 2`: two batches of sizes 2 and 1. -/
theorem createBatches_spec_witness :
    ∃ bs, createBatches [1, 2, 3] [4, 5, 6] 2 = some bs ∧
      bs.length = (([1, 2, 3] : List Nat).length + 2 - 1) / 2 ∧
      (∀ b ∈ bs, b.1.length ≤ 2 ∧ b.2.length ≤ 2) ∧
      (∀ b ∈ bs.dropLast, b.1.length = 2) ∧
      (bs.map Prod.fst).flatten = [1, 2, 3] ∧
      (bs.map Prod.snd).flatten = ([4, 5, 6] : List Nat) :=
  createBatches_spec [1, 2, 3] [4, 5, 6] 2 (by decide) (by decide) (by decide)

theorem createBatchesGo_ok {α β : Type} (B : Nat) (hB : 1 ≤ B)
    (inputs : List α) (targets : List β) :
    ∀ (fuel i : Nat), inputs.length - i ≤ fuel →
      ∃ r, createBatchesGo inputs targets B i fuel = some r := by
  intro fuel
  induction fuel with
  | zero =>
    intro i hi
    simp [createBatchesGo, show ¬ i < inputs.length by omega]
  | succ fuel ih =>
    intro i hi
    by_cases hlt : i < inputs.length
    · obtain ⟨r, hr⟩ := ih (i + B) (by omega)
      rw [createBatchesGo, if_pos hlt]
      simp only [hr]
      exact ⟨_, rfl⟩
    · simp [createBatchesGo, hlt]

theorem createBatchesGo_zero_none {α β : Type} (inputs : List α) (targets : List β)
    (hN : 1 ≤ inputs.length) :
    ∀ fuel, createBatchesGo inputs targets 0 0 fuel = none := by
  intro fuel
  induction fuel with
  | zero => simp [createBatchesGo, show 0 < inputs.length by omega]
  | succ fuel ih =>
    rw [createBatchesGo, if_pos (by omega : 0 < inputs.length)]
    rw [show (0 : Nat) + 0 = 0 from rfl, ih]

/-- C10 (amended).  The batching loop terminates for every batch size `B ≥ 1`;
for batch size 0 and a non-empty sample list the loop index never advances, so
no iteration bound completes the loop (`createBatchesGo` is `none` for every
fuel) and `createBatches` diverges; consequently a `train` call with batch
size 0, at least one epoch, and a non-empty dataset diverges whenever the stop
flag was not already observed set at the first epoch boundary. -/
theorem createBatches_termination :
    (∀ (inputs targets : List (List ℚ)) (B : Nat), 1 ≤ B →
      ∃ bs, createBatches inputs targets B = some bs) ∧
    (∀ (inputs targets : List (List ℚ)) (fuel : Nat), 1 ≤ inputs.length →
      createBatchesGo inputs targets 0 0 fuel = none) ∧
    (∀ (inputs targets : List (List ℚ)) (epochs : Nat) (sched : Nat → Bool) (fuel : Nat),
      1 ≤ inputs.length → 1 ≤ epochs → sched 0 = false →
      NeuralNetwork.train inputs targets epochs 0 sched fuel = none) := by
  have hgo : ∀ (inputs targets : List (List ℚ)) (fuel : Nat), 1 ≤ inputs.length →
      createBatchesGo inputs targets 0 0 fuel = none :=
    fun inputs targets fuel hN => createBatchesGo_zero_none inputs targets hN fuel
  refine ⟨?_, hgo, ?_⟩
  · intro inputs targets B hB
    obtain ⟨r, hr⟩ := createBatchesGo_ok B hB inputs targets (inputs.length + 1) 0 (by omega)
    exact ⟨r, hr⟩
  · intro inputs targets epochs sched fuel hN he hs
    rw [NeuralNetwork.train, NeuralNetwork.trainLoop, dif_pos ⟨by omega, hs⟩,
      hgo inputs targets fuel hN]

/-- Counterexample to the parenthetical of C10 as stated: a `train` call with
batch size 0 on a non-empty dataset but zero requested epochs never enters the
epoch loop, so it terminates (returning no completed epochs, with the final
flag stores applied). -/
theorem train_batchZero_terminating_counterexample :
    1 ≤ ([[(0 : ℚ)]] : List (List ℚ)).length ∧
      NeuralNetwork.train [[(0 : ℚ)]] [[(0 : ℚ)]] 0 0 (fun _ => false) 0 =
        some ([], false, 1) := by
  constructor
  · simp
  · rw [NeuralNetwork.train, NeuralNetwork.trainLoop, dif_neg (by simp)]

/-- Witness for C10 (amended): a terminating batch-size-1 call, a diverging
batch-size-0 slicing loop, and a diverging batch-size-0 training call. -/
theorem createBatches_termination_witness :
    (∃ bs, createBatches [[(1 : ℚ)]] [[(1 : ℚ)]] 1 = some bs) ∧
      createBatchesGo [[(1 : ℚ)]] [[(1 : ℚ)]] 0 0 5 = none ∧
      NeuralNetwork.train [[(1 : ℚ)]] [[(1 : ℚ)]] 2 0 (fun _ => false) 7 = none :=
  ⟨createBatches_termination.1 [[1]] [[1]] 1 (by omega),
   createBatches_termination.2.1 [[1]] [[1]] 5 (by simp),
   createBatches_termination.2.2 [[1]] [[1]] 2 (fun _ => false) 7 (by simp) (by omega) rfl⟩

/-- The epoch loop visits consecutive epoch indices starting at `e`, and every
visited epoch `x` satisfies the boundary condition: `x < epochs` and the stop
flag was observed clear at the check before epoch `x`. -/
theorem trainLoop_range (inputs targets : List (List ℚ)) (batchSize epochs : Nat)
    (sched : Nat → Bool) (fuel : Nat) :
    ∀ (e : Nat) (es : List Nat),
      NeuralNetwork.trainLoop inputs targets batchSize epochs sched fuel e = some es →
      es = List.range' e es.length ∧ ∀ x ∈ es, x < epochs ∧ sched x = false := by
  suffices H : ∀ (n : Nat), ∀ (e : Nat) (es : List Nat), epochs - e ≤ n →
      NeuralNetwork.trainLoop inputs targets batchSize epochs sched fuel e = some es →
      es = List.range' e es.length ∧ ∀ x ∈ es, x < epochs ∧ sched x = false by
    exact fun e es h => H (epochs - e) e es le_rfl h
  intro n
  induction n with
  | zero =>
    intro e es hn h
    rw [NeuralNetwork.trainLoop, dif_neg (by omega)] at h
    obtain rfl : ([] : List Nat) = es := Option.some.inj h
    simp
  | succ n ih =>
    intro e es hn h
    rw [NeuralNetwork.trainLoop] at h
    by_cases hc : e < epochs ∧ sched e = false
    · rw [dif_pos hc] at h
      cases hgo : createBatchesGo inputs targets batchSize 0 fuel with
      | none => rw [hgo] at h; exact absurd h (by simp)
      | some bs =>
        rw [hgo] at h
        cases hrec : NeuralNetwork.trainLoop inputs targets batchSize epochs sched fuel (e + 1) with
        | none => rw [hrec] at h; exact absurd h (by simp)
        | some rest =>
          rw [hrec] at h
          obtain rfl : e :: rest = es := Option.some.inj h
          obtain ⟨hr1, hr2⟩ := ih (e + 1) rest (by omega) hrec
          refine ⟨?_, ?_⟩
          · rw [List.length_cons, List.range'_succ e rest.length 1]
            rw [← hr1]
          · intro x hx
            rcases List.mem_cons.mp hx with rfl | hx
            · exact ⟨hc.1, hc.2⟩
            · exact hr2 x hx
    · rw [dif_neg hc] at h
      obtain rfl : ([] : List Nat) = es := Option.some.inj h
      simp

/-- C8.  The stop flag is consulted only at epoch boundaries: whenever a
boundary observation `sched s` yields true, no epoch with index `≥ s` is ever
entered and at most `s` epochs run in total.  In particular, if
`stopTraining()` stores the flag while epoch `k` is in progress, every
boundary check from `k + 1` on observes it set (the flag is never cleared
during the loop), so taking `s = k + 1` shows the loop runs at most the one
epoch already in progress before exiting. -/
theorem train_stop_epoch_bound (inputs targets : List (List ℚ)) (epochs batchSize : Nat)
    (sched : Nat → Bool) (fuel : Nat) (s : Nat) (hs : sched s = true)
    (es : List Nat) (b : Bool) (p : ℚ)
    (hr : NeuralNetwork.train inputs targets epochs batchSize sched fuel = some (es, b, p)) :
    es.length ≤ s ∧ ∀ x ∈ es, x < s := by
  rw [NeuralNetwork.train] at hr
  cases hloop : NeuralNetwork.trainLoop inputs targets batchSize epochs sched fuel 0 with
  | none => rw [hloop] at hr; exact absurd hr (by simp)
  | some es0 =>
    rw [hloop] at hr
    have hes : es0 = es := congrArg Prod.fst (Option.some.inj hr)
    rw [hes] at hloop
    obtain ⟨hrange, hprop⟩ := trainLoop_range inputs targets batchSize epochs sched fuel 0 es hloop
    have hlen : es.length ≤ s := by
      by_contra hgt
      have hmem : s ∈ es := by
        rw [hrange]
        exact List.mem_range'_1.mpr ⟨Nat.zero_le s, by omega⟩
      have := (hprop s hmem).2
      rw [hs] at this
      exact Bool.noConfusion this
    refine ⟨hlen, fun x hx => ?_⟩
    have : x ∈ List.range' 0 es.length := hrange ▸ hx
    have := List.mem_range'_1.mp this
    omega

/-- Concrete two-epoch run used by the C8 and C9 witnesses: one sample, batch
size 1, two requested epochs and a stop flag first observed set at the
boundary before epoch 1, so only epoch 0 runs; the call still returns with
`isTraining = false` and `trainingProgress = 1`. -/
theorem trainEval_two_epochs :
    NeuralNetwork.train [[(0 : ℚ)]] [[(0 : ℚ)]] 2 1 (fun e => decide (1 ≤ e)) 2 =
      some ([0], false, 1) := by
  have h1 : NeuralNetwork.trainLoop [[(0 : ℚ)]] [[(0 : ℚ)]] 1 2
      (fun e => decide (1 ≤ e)) 2 1 = some [] := by
    rw [NeuralNetwork.trainLoop, dif_neg (by simp)]
  have hgo : createBatchesGo [[(0 : ℚ)]] [[(0 : ℚ)]] 1 0 2 =
      some [([[(0 : ℚ)]], [[(0 : ℚ)]])] := rfl
  have h0 : NeuralNetwork.trainLoop [[(0 : ℚ)]] [[(0 : ℚ)]] 1 2
      (fun e => decide (1 ≤ e)) 2 0 = some [0] := by
    rw [NeuralNetwork.trainLoop, dif_pos (by simp)]
    rw [hgo, h1]
  rw [NeuralNetwork.train, h0]

/-- Witness for C8 on the concrete two-epoch run: the flag is observed set at
boundary 1 and indeed only epoch 0 ran. -/
theorem train_stop_epoch_bound_witness :
    ([0] : List Nat).length ≤ 1 ∧ ∀ x ∈ ([0] : List Nat), x < 1 :=
  train_stop_epoch_bound [[0]] [[0]] 2 1 (fun e => decide (1 ≤ e)) 2 1 rfl
    [0] false 1 trainEval_two_epochs

/-- C9.  Whatever the stop schedule was — in particular for runs the flag
cancelled before all requested epochs ran — every return of `train` carries
`isTraining = false` and `trainingProgress = 1` (the two unconditional stores
at NeuralNetwork.cpp lines 288-289), so a reader of `getTrainingProgress()`
cannot tell a cancelled run from a completed one. -/
theorem train_final_state (inputs targets : List (List ℚ)) (epochs batchSize : Nat)
    (sched : Nat → Bool) (fuel : Nat) (es : List Nat) (b : Bool) (p : ℚ)
    (hr : NeuralNetwork.train inputs targets epochs batchSize sched fuel = some (es, b, p)) :
    b = false ∧ p = 1 := by
  rw [NeuralNetwork.train] at hr
  cases hloop : NeuralNetwork.trainLoop inputs targets batchSize epochs sched fuel 0 with
  | none => rw [hloop] at hr; exact absurd hr (by simp)
  | some es0 =>
    rw [hloop] at hr
    have := Option.some.inj hr
    exact ⟨(congrArg (fun q => q.2.1) this).symm, (congrArg (fun q => q.2.2) this).symm⟩

/-- Witness for C9 on the concrete cancelled two-epoch run. -/
theorem train_final_state_witness : (false = false) ∧ ((1 : ℚ) = 1) :=
  train_final_state [[0]] [[0]] 2 1 (fun e => decide (1 ≤ e)) 2 [0] false 1 trainEval_two_epochs

/-- On the non-aborting path `Layer::forward` stores exactly the dot product
`Σ inputs_k * weights_k` as each unit weighted input. -/
theorem Layer.forward_ok (L : Layer) (inputs : List ℚ)
    (h1 : L.neurons ≠ []) (h2 : ∀ n ∈ L.neurons, n.inputWeights.length = inputs.length) :
    L.forward inputs = .ok { L with neurons := L.neurons.map (fun n =>
      { n with weightedInput := weightedSum inputs n.inputWeights }) } := by
  rw [Layer.forward]
  simp only [nnvAssert, h1, List.isEmpty_iff, if_true, Bool.not_eq_true, if_neg,
    Bool.not_false, ite_true, reduceIte]
  rw [show (if (!L.neurons.isEmpty) = true then Except.ok () else
      Except.error (ε := CrashError) .assertFail) = Except.ok () by simp [h1]]
  rw [List.mapM_ok_of_forall _ (fun n =>
    { n with weightedInput := weightedSum inputs n.inputWeights }) L.neurons
    (fun n hn => by simp [nnvAssert, h2 n hn, Bind.bind, Except.bind])]
  rfl

/-- Inversion of `Layer::forward`: a non-aborting run means the layer was
non-empty, every unit weight vector had the input length, and the result is
the dot-product update of every unit. -/
theorem Layer.forward_ok_inv (L : Layer) (inputs : List ℚ) (L1 : Layer)
    (h : L.forward inputs = .ok L1) :
    L.neurons ≠ [] ∧ (∀ n ∈ L.neurons, n.inputWeights.length = inputs.length) ∧
      L1 = { L with neurons := L.neurons.map (fun n =>
        { n with weightedInput := weightedSum inputs n.inputWeights }) } := by
  rw [Layer.forward] at h
  by_cases hne : L.neurons = []
  · rw [show nnvAssert (!L.neurons.isEmpty) = Except.error .assertFail by
      simp [nnvAssert, hne]] at h
    exact absurd h (by simp [Bind.bind, Except.bind])
  · rw [show nnvAssert (!L.neurons.isEmpty) = Except.ok () by simp [nnvAssert, hne]] at h
    have hbind : (Except.ok () >>= fun _ => (L.neurons.mapM (fun n => do
        nnvAssert (n.inputWeights.length == inputs.length)
        Except.ok { n with weightedInput := weightedSum inputs n.inputWeights }) >>=
          fun ns => Except.ok { L with neurons := ns })) =
        (L.neurons.mapM (fun n => do
          nnvAssert (n.inputWeights.length == inputs.length)
          Except.ok { n with weightedInput := weightedSum inputs n.inputWeights }) >>=
            fun ns => Except.ok { L with neurons := ns }) := rfl
    rw [hbind] at h
    cases hm : L.neurons.mapM (fun n => do
        nnvAssert (n.inputWeights.length == inputs.length)
        Except.ok { n with weightedInput := weightedSum inputs n.inputWeights }) with
    | error e =>
      rw [hm] at h
      exact absurd h (by simp [Bind.bind, Except.bind])
    | ok ns =>
      have hlen : ∀ n ∈ L.neurons, n.inputWeights.length = inputs.length := by
        intro n hn
        obtain ⟨c, hc⟩ := List.mapM_ok_forall hm n hn
        by_contra hne2
        rw [show nnvAssert (n.inputWeights.length == inputs.length) =
            Except.error .assertFail by simp [nnvAssert, hne2]] at hc
        exact absurd hc (by simp [Bind.bind, Except.bind])
      have hval := List.mapM_ok_of_forall (fun n => do
          nnvAssert (n.inputWeights.length == inputs.length)
          Except.ok { n with weightedInput := weightedSum inputs n.inputWeights })
        (fun n => { n with weightedInput := weightedSum inputs n.inputWeights }) L.neurons
        (fun n hn => by simp [nnvAssert, hlen n hn, Bind.bind, Except.bind])
      rw [hm] at hval
      have hns : ns = L.neurons.map (fun n =>
          { n with weightedInput := weightedSum inputs n.inputWeights }) :=
        (Except.ok.inj hval)
      rw [hm] at h
      have h2 : (Except.ok { L with neurons := ns } : Except CrashError Layer) =
          Except.ok L1 := h
      refine ⟨hne, hlen, ?_⟩
      rw [← Except.ok.inj h2, hns]

/-- C3 (amended).  `Layer::forward` guards the dimensions with `NNV_ASSERT`
(an `assert`): in a debug build a weight-vector length differing from the
input length aborts the process, and nothing is logged or degraded (in a
release build the check vanishes and the loop reads the weight vector out of
bounds when the input is longer).  When every unit weight-vector length
equals the input length, the call succeeds and sets every unit weighted
input to the dot product `Σ inputs_k * weights_k`. -/
theorem Layer.forward_assert_spec (L : Layer) (inputs : List ℚ) :
    (L.neurons ≠ [] → (∀ n ∈ L.neurons, n.inputWeights.length = inputs.length) →
      L.forward inputs = .ok { L with neurons := L.neurons.map (fun n =>
        { n with weightedInput := weightedSum inputs n.inputWeights }) }) ∧
    ((∃ n ∈ L.neurons, n.inputWeights.length ≠ inputs.length) →
      L.forward inputs = .error .assertFail) := by
  refine ⟨Layer.forward_ok L inputs, ?_⟩
  intro hmis
  cases hf : L.forward inputs with
  | error e => cases e; rfl
  | ok L1 =>
    obtain ⟨-, hlen, -⟩ := Layer.forward_ok_inv L inputs L1 hf
    obtain ⟨n, hn, hne⟩ := hmis
    exact absurd (hlen n hn) hne

/-- Counterexample to C3 as stated: feeding a 1-element input to a unit with
2 weights does not fail soft — there is no logged DimensionMismatch condition
and no harmless degraded result; the assert aborts (modelled as the `error`
outcome, on which no layer state is returned at all). -/
theorem layer_forward_mismatch_counterexample :
    (∃ n ∈ mismatchLayer.neurons, n.inputWeights.length ≠ [(5 : ℚ)].length) ∧
      mismatchLayer.forward [(5 : ℚ)] = .error .assertFail := by
  constructor
  · exact ⟨{ Neuron.mkDefault with inputWeights := [1, 1] }, by simp [mismatchLayer],
      by simp [Neuron.mkDefault]⟩
  · rfl

/-- Witness for C3 (amended): the matching-length branch at one unit with one
weight and one input, and the aborting branch at the same unit with an empty
input. -/
theorem layer_forward_spec_witness :
    (singleWeightLayer.forward [(2 : ℚ)] =
      .ok { singleWeightLayer with neurons := singleWeightLayer.neurons.map (fun n =>
        { n with weightedInput := weightedSum [(2 : ℚ)] n.inputWeights }) }) ∧
    (singleWeightLayer.forward ([] : List ℚ) = .error .assertFail) :=
  ⟨(Layer.forward_assert_spec singleWeightLayer [(2 : ℚ)]).1 (by simp [singleWeightLayer])
      (by intro n hn; simp [singleWeightLayer] at hn; simp [hn, Neuron.mkDefault]),
   (Layer.forward_assert_spec singleWeightLayer []).2
      ⟨{ Neuron.mkDefault with inputWeights := [1] }, by simp [singleWeightLayer],
        by simp [Neuron.mkDefault]⟩⟩

theorem except_ok_bind {ε α β : Type} (a : α) (f : α → Except ε β) :
    ((Except.ok a : Except ε α) >>= f) = f a := rfl

theorem softmaxQ_length (f : ℚ → ℚ) (l : List ℚ) : (softmaxQ f l).length = l.length := by
  cases l <;> simp [softmaxQ]

theorem zipWith_setActivation_getActs (ns : List Neuron) (xs : List ℚ)
    (h : xs.length = ns.length) :
    (List.zipWith (fun n x => { n with activation := x }) ns xs).map
      (fun n => n.activation) = xs := by
  induction ns generalizing xs with
  | nil =>
    cases xs
    · rfl
    · simp at h
  | cons n ns ih =>
    cases xs with
    | nil => simp at h
    | cons x xs =>
      simp only [List.zipWith_cons_cons, List.map_cons]
      rw [ih xs (by simpa using h)]

theorem Layer.getActivations_length (L : Layer) :
    L.getActivations.length = L.neurons.length := by
  simp [Layer.getActivations]

theorem Layer.applyActivation_neurons_length (L : Layer) (sem : ActSem) :
    (L.applyActivation sem).neurons.length = L.neurons.length := by
  rw [Layer.applyActivation]
  by_cases h : L.activationType = .softmax
  · simp [h, softmaxQ_length]
  · simp [h]

theorem Layer.applyDropout_neurons_length (L : Layer) (training : Bool) (draw : Nat → ℚ) :
    (L.applyDropout training draw).neurons.length = L.neurons.length := by
  rw [Layer.applyDropout]
  by_cases h : training = false ∨ L.dropoutRate ≤ 0
  · simp [h]
  · simp [h]

/-- Under the dimension invariant the whole hidden-layer pipeline of
`NeuralNetwork::forward` succeeds, preserves the number of layers, and
produces the activations of the last processed layer. -/
theorem forwardLayers_ok (sem : ActSem) (training : Bool) (draws : Nat → Nat → ℚ) :
    ∀ (ls : List Layer) (prevActs : List ℚ) (i : Nat),
      layersOkFrom prevActs.length ls →
      ∃ ls2 out, forwardLayers sem training draws ls prevActs i = .ok (ls2, out) ∧
        ls2.length = ls.length ∧ out.length = lastSizeD ls prevActs.length := by
  intro ls
  induction ls with
  | nil =>
    intro prevActs i hok
    exact ⟨[], prevActs, rfl, rfl, rfl⟩
  | cons L rest ih =>
    intro prevActs i hok
    obtain ⟨hne, hlen, hrest⟩ := hok
    rw [forwardLayers, Layer.forward_ok L prevActs hne hlen]
    have hfwdlen : ({ L with neurons := L.neurons.map (fun n =>
        { n with weightedInput := weightedSum prevActs n.inputWeights }) } :
        Layer).neurons.length = L.neurons.length := by simp
    have hacts : ((({ L with neurons := L.neurons.map (fun n =>
        { n with weightedInput := weightedSum prevActs n.inputWeights }) } :
        Layer).applyActivation sem).applyDropout training (draws i)).getActivations.length =
        L.neurons.length := by
      rw [Layer.getActivations_length, Layer.applyDropout_neurons_length,
        Layer.applyActivation_neurons_length, hfwdlen]
    obtain ⟨ls2, out, hrec, hlen2, hout⟩ := ih ((({ L with neurons := L.neurons.map (fun n =>
        { n with weightedInput := weightedSum prevActs n.inputWeights }) } :
        Layer).applyActivation sem).applyDropout training (draws i)).getActivations (i + 1)
      (by rw [hacts]; exact hrest)
    simp only [except_ok_bind]
    refine ⟨((({ L with neurons := L.neurons.map (fun n =>
        { n with weightedInput := weightedSum prevActs n.inputWeights }) } :
        Layer).applyActivation sem).applyDropout training (draws i)) :: ls2, out,
      ?_, by simp [hlen2], ?_⟩
    · rw [hrec]
      rfl
    · rw [hout, hacts]
      rfl

/-- Equation of `NeuralNetwork::forward` for a non-empty layer list. -/
theorem NeuralNetwork.forward_cons (net : NeuralNetwork) (L0 : Layer) (rest : List Layer)
    (h : net.layers = L0 :: rest) (inputs : List ℚ) (sem : ActSem) (draws : Nat → Nat → ℚ) :
    net.forward inputs sem draws =
      (if inputs.length ≠ L0.getSize then .ok ([], net)
      else do
        let L0₁ ← L0.setActivations inputs
        let r ← forwardLayers sem net.isTraining draws rest L0₁.getActivations 1
        .ok (r.2, { net with layers := L0₁ :: r.1 })) := by
  rw [NeuralNetwork.forward, h]

theorem Layer.setActivations_ok (L : Layer) (xs : List ℚ) (h : xs.length = L.neurons.length) :
    L.setActivations xs = .ok (L.withActivationsSet xs) := by
  rw [Layer.setActivations]
  rw [show nnvAssert (xs.length == L.neurons.length) = Except.ok () by simp [nnvAssert, h]]
  rfl

theorem Layer.withActivationsSet_getActs (L : Layer) (xs : List ℚ)
    (h : xs.length = L.neurons.length) :
    (L.withActivationsSet xs).getActivations = xs := by
  rw [Layer.withActivationsSet, Layer.getActivations]
  exact zipWith_setActivation_getActs L.neurons xs h

/-- C2 (amended).  `NeuralNetwork::forward` returns the empty vector (with the
network untouched) when the network has no layers or the input length differs
from the first layer size.  Otherwise, provided the network satisfies the
dimension invariant (every non-input layer non-empty with weight vectors
matching its predecessor — spec section 3), the pass runs to completion and
the returned vector has the length of the last layer; on a network violating
that invariant the debug build aborts in a layer-level assert instead of
returning. -/
theorem NeuralNetwork.forward_length_spec (net : NeuralNetwork) (inputs : List ℚ) (sem : ActSem)
    (draws : Nat → Nat → ℚ) :
    (net.layers = [] → net.forward inputs sem draws = .ok ([], net)) ∧
    (∀ L0 rest, net.layers = L0 :: rest → inputs.length ≠ L0.getSize →
      net.forward inputs sem draws = .ok ([], net)) ∧
    (net.validDims → ∀ L0 rest, net.layers = L0 :: rest → inputs.length = L0.getSize →
      ∃ v net2, net.forward inputs sem draws = .ok (v, net2) ∧
        v.length = lastSizeD net.layers 0) := by
  refine ⟨?_, ?_, ?_⟩
  · intro h
    rw [NeuralNetwork.forward, h]
  · intro L0 rest h hne
    rw [NeuralNetwork.forward_cons net L0 rest h, if_pos hne]
  · intro hv L0 rest h hlen
    rw [NeuralNetwork.forward_cons net L0 rest h, if_neg (by simp [hlen])]
    rw [Layer.setActivations_ok L0 inputs (by simpa [Layer.getSize] using hlen)]
    have hacts : (L0.withActivationsSet inputs).getActivations = inputs :=
      Layer.withActivationsSet_getActs L0 inputs (by simpa [Layer.getSize] using hlen)
    have hvrest : layersOkFrom ((L0.withActivationsSet inputs).getActivations).length rest := by
      rw [hacts, hlen]
      rw [NeuralNetwork.validDims, h] at hv
      exact hv
    obtain ⟨ls2, out, hrec, hlen2, hout⟩ := forwardLayers_ok sem net.isTraining draws rest
      ((L0.withActivationsSet inputs).getActivations) 1 hvrest
    simp only [except_ok_bind]
    rw [hrec]
    refine ⟨out, _, rfl, ?_⟩
    rw [hout, hacts, h]
    rw [show lastSizeD (L0 :: rest) 0 = lastSizeD rest L0.getSize from rfl, hlen]

/-- Counterexample to C2 as stated: a non-empty network whose input length
matches the first layer size but whose second layer weight vectors do not
match the first layer size.  The pass neither returns the empty result nor a
vector of the last layer length: it dies in the weight-length assert of
`Layer::forward`. -/
theorem network_forward_counterexample :
    badNetC2.layers ≠ [] ∧
      [(0 : ℚ)].length = inputLayer1.getSize ∧
      badNetC2.forward [(0 : ℚ)] idActSem zeroDraws = .error .assertFail := by
  refine ⟨by simp [badNetC2], by simp [inputLayer1, Layer.getSize], ?_⟩
  rfl

/-- Witness for C2 (amended) on the valid branch of the concrete 1-1 network. -/
theorem network_forward_spec_witness :
    ∃ v net2, goodNet11.forward [(0 : ℚ)] idActSem zeroDraws = .ok (v, net2) ∧
      v.length = lastSizeD goodNet11.layers 0 :=
  (NeuralNetwork.forward_length_spec goodNet11 [(0 : ℚ)] idActSem zeroDraws).2.2
    (by
      rw [NeuralNetwork.validDims]
      refine ⟨by simp [goodNet11], ?_, trivial⟩
      intro n hn
      simp only [goodNet11, List.mem_singleton] at hn
      simp [hn, Neuron.mkDefault, inputLayer1, Layer.getSize])
    inputLayer1 _ rfl rfl

theorem map_of_struct_eq {γ : Type} (G : List ℚ → ℚ → γ) {ns2 ns : List Neuron}
    (h : ns2.map Neuron.struct = ns.map Neuron.struct) :
    ns2.map (fun n => G n.inputWeights n.bias) = ns.map (fun n => G n.inputWeights n.bias) := by
  have h2 := congrArg (List.map (fun p : List ℚ × ℚ => G p.1 p.2)) h
  simpa [List.map_map, Function.comp_def, Neuron.struct] using h2

theorem zipWith_setActivation_map_struct (ns : List Neuron) (xs : List ℚ)
    (h : ns.length ≤ xs.length) :
    (List.zipWith (fun n x => { n with activation := x }) ns xs).map Neuron.struct =
      ns.map Neuron.struct := by
  induction ns generalizing xs with
  | nil => rfl
  | cons n ns ih =>
    cases xs with
    | nil => simp at h
    | cons x xs =>
      simp only [List.zipWith_cons_cons, List.map_cons]
      rw [ih xs (by simpa using h)]
      rfl

theorem mapIdx_map_struct :
    ∀ (ns : List Neuron) (f : Nat → Neuron → Neuron),
      (∀ i n, (f i n).struct = n.struct) →
      (ns.mapIdx f).map Neuron.struct = ns.map Neuron.struct := by
  intro ns
  induction ns with
  | nil => intro f hf; rfl
  | cons n ns ih =>
    intro f hf
    rw [List.mapIdx_cons, List.map_cons, List.map_cons, hf 0 n,
      ih (fun i => f (i + 1)) (fun i m => hf (i + 1) m)]

theorem Layer.forward_sig (L M : Layer) (p : List ℚ) (h : L.forward p = .ok M) :
    M.inferenceSig = L.inferenceSig := by
  obtain ⟨-, -, rfl⟩ := Layer.forward_ok_inv L p M h
  simp [Layer.inferenceSig, List.map_map, Function.comp_def, Neuron.struct]

theorem Layer.applyActivation_sig (L : Layer) (sem : ActSem) :
    (L.applyActivation sem).inferenceSig = L.inferenceSig := by
  rw [Layer.applyActivation]
  by_cases h : L.activationType = .softmax
  · rw [if_pos h]
    rw [Layer.inferenceSig, Layer.inferenceSig]
    rw [zipWith_setActivation_map_struct _ _ (by simp [softmaxQ_length])]
  · rw [if_neg h]
    simp [Layer.inferenceSig, List.map_map, Function.comp_def, Neuron.struct]

theorem Layer.applyDropout_sig (L : Layer) (training : Bool) (draw : Nat → ℚ) :
    (L.applyDropout training draw).inferenceSig = L.inferenceSig := by
  rw [Layer.applyDropout]
  by_cases h : training = false ∨ L.dropoutRate ≤ 0
  · rw [if_pos h]
    rfl
  · rw [if_neg h]
    rw [Layer.inferenceSig, Layer.inferenceSig]
    rw [mapIdx_map_struct _ _ (by
      intro i n
      by_cases h1 : i < L.dropoutMask.length
      · by_cases h2 : draw i < 1 - L.dropoutRate
        · simp [h1, h2, Neuron.struct]
        · simp [h1, h2, Neuron.struct]
      · simp [h1, Neuron.struct])]

theorem Layer.applyDropout_false_neurons (L : Layer) (draw : Nat → ℚ) :
    (L.applyDropout false draw).neurons = L.neurons := by
  rw [Layer.applyDropout, if_pos (Or.inl rfl)]

theorem Layer.applyDropout_false_getActs (L : Layer) (draw : Nat → ℚ) :
    (L.applyDropout false draw).getActivations = L.getActivations := by
  rw [Layer.getActivations, Layer.getActivations, Layer.applyDropout_false_neurons]

/-- The activations after `forward` plus `applyActivation` are a function of
the layer inference signature and the incoming activations only. -/
theorem forward_applyActivation_acts (sem : ActSem) (L M : Layer) (p : List ℚ)
    (h : L.forward p = .ok M) :
    (M.applyActivation sem).getActivations =
      (if L.activationType = .softmax then
        softmaxQ sem.expF (L.neurons.map (fun n => weightedSum p n.inputWeights + n.bias))
      else
        L.neurons.map (fun n =>
          sem.scalar L.activationType (weightedSum p n.inputWeights + n.bias))) := by
  obtain ⟨-, -, rfl⟩ := Layer.forward_ok_inv L p M h
  rw [Layer.applyActivation]
  by_cases hsm : L.activationType = .softmax
  · rw [if_pos (show ({ L with neurons := L.neurons.map (fun n =>
        { n with weightedInput := weightedSum p n.inputWeights }) } :
        Layer).activationType = .softmax from hsm), if_pos hsm]
    rw [Layer.getActivations]
    rw [zipWith_setActivation_getActs _ _ (by simp [softmaxQ_length])]
    simp [List.map_map, Function.comp_def]
  · rw [if_neg (show ¬ ({ L with neurons := L.neurons.map (fun n =>
        { n with weightedInput := weightedSum p n.inputWeights }) } :
        Layer).activationType = .softmax from hsm), if_neg hsm]
    rw [Layer.getActivations]
    simp [List.map_map, Function.comp_def]

/-- Each processed layer keeps its inference signature: the pipeline only
writes weighted inputs, activations and the dropout mask, never weights,
biases or the activation tag. -/
theorem forwardLayers_sig (sem : ActSem) (training : Bool) (draws : Nat → Nat → ℚ) :
    ∀ (ls : List Layer) (prevActs : List ℚ) (i : Nat) (ls2 : List Layer) (out : List ℚ),
      forwardLayers sem training draws ls prevActs i = .ok (ls2, out) →
      ls2.map Layer.inferenceSig = ls.map Layer.inferenceSig := by
  intro ls
  induction ls with
  | nil =>
    intro prevActs i ls2 out h
    rw [forwardLayers] at h
    have h1 : [] = ls2 := congrArg Prod.fst (Except.ok.inj h)
    rw [← h1]
  | cons L rest ih =>
    intro prevActs i ls2 out h
    rw [forwardLayers] at h
    cases hf : L.forward prevActs with
    | error e => rw [hf] at h; exact absurd h (by simp [Bind.bind, Except.bind])
    | ok M =>
      rw [hf] at h
      simp only [except_ok_bind] at h
      cases hrec : forwardLayers sem training draws rest
          (((M.applyActivation sem).applyDropout training (draws i)).getActivations)
          (i + 1) with
      | error e => rw [hrec] at h; exact absurd h (by simp [Bind.bind, Except.bind])
      | ok r =>
        rw [hrec] at h
        simp only [except_ok_bind] at h
        have h1 : (M.applyActivation sem).applyDropout training (draws i) :: r.1 = ls2 :=
          congrArg Prod.fst (Except.ok.inj h)
        rw [← h1]
        simp only [List.map_cons]
        rw [ih _ _ _ _ hrec]
        rw [Layer.applyDropout_sig, Layer.applyActivation_sig, Layer.forward_sig L M prevActs hf]

/-- With dropout disabled the pipeline output depends only on the layer
inference signatures and the incoming activations: a second run over layers
with the same signatures, from the same activations, with any dropout oracle
and any slot indices, succeeds and yields the same output vector. -/
theorem forwardLayers_det (sem : ActSem) (draws1 draws2 : Nat → Nat → ℚ) :
    ∀ (ls1 ls2 : List Layer) (prevActs : List ℚ) (i1 i2 : Nat) (r1 : List Layer × List ℚ),
      ls2.map Layer.inferenceSig = ls1.map Layer.inferenceSig →
      forwardLayers sem false draws1 ls1 prevActs i1 = .ok r1 →
      ∃ r2, forwardLayers sem false draws2 ls2 prevActs i2 = .ok r2 ∧ r2.2 = r1.2 := by
  intro ls1
  induction ls1 with
  | nil =>
    intro ls2 prevActs i1 i2 r1 hsig h
    have hls2 : ls2 = [] := by simpa using hsig
    rw [forwardLayers] at h
    subst hls2
    refine ⟨([], prevActs), rfl, ?_⟩
    rw [← Except.ok.inj h]
  | cons L1 rest1 ih =>
    intro ls2 prevActs i1 i2 r1 hsig h
    cases ls2 with
    | nil => simp at hsig
    | cons L2 rest2 =>
      simp only [List.map_cons, List.cons.injEq] at hsig
      obtain ⟨hsigL, hsigRest⟩ := hsig
      rw [forwardLayers] at h
      cases hf1 : L1.forward prevActs with
      | error e => rw [hf1] at h; exact absurd h (by simp [Bind.bind, Except.bind])
      | ok M1 =>
        rw [hf1] at h
        simp only [except_ok_bind] at h
        obtain ⟨hne1, hlen1, -⟩ := Layer.forward_ok_inv L1 prevActs M1 hf1
        have hsmap : L2.neurons.map Neuron.struct = L1.neurons.map Neuron.struct :=
          congrArg Prod.snd hsigL
        have htag : L2.activationType = L1.activationType := congrArg Prod.fst hsigL
        have hne2 : L2.neurons ≠ [] := by
          intro hnil
          have := congrArg List.length hsmap
          rw [hnil] at this
          simp only [List.map_nil, List.length_nil, List.length_map] at this
          exact hne1 (List.length_eq_zero.mp this.symm)
        have hlen2 : ∀ n ∈ L2.neurons, n.inputWeights.length = prevActs.length := by
          intro n hn
          have hmem : n.inputWeights ∈ L2.neurons.map (fun m => m.inputWeights) :=
            List.mem_map_of_mem _ hn
          have hw : L2.neurons.map (fun m => m.inputWeights) =
              L1.neurons.map (fun m => m.inputWeights) :=
            map_of_struct_eq (fun w _ => w) hsmap
          rw [hw] at hmem
          obtain ⟨m, hm, hmw⟩ := List.mem_map.mp hmem
          rw [← hmw]
          exact hlen1 m hm
        have hf2 := Layer.forward_ok L2 prevActs hne2 hlen2
        have hacts : ((({ L2 with neurons := L2.neurons.map (fun n =>
            { n with weightedInput := weightedSum prevActs n.inputWeights }) } :
            Layer).applyActivation sem).applyDropout false (draws2 i2)).getActivations =
            ((M1.applyActivation sem).applyDropout false (draws1 i1)).getActivations := by
          rw [Layer.applyDropout_false_getActs, Layer.applyDropout_false_getActs]
          rw [forward_applyActivation_acts sem L2 _ prevActs hf2,
            forward_applyActivation_acts sem L1 M1 prevActs hf1]
          rw [htag]
          by_cases hsm : L1.activationType = .softmax
          · rw [if_pos hsm, if_pos hsm]
            have := map_of_struct_eq (fun w b => weightedSum prevActs w + b) hsmap
            rw [this]
          · rw [if_neg hsm, if_neg hsm]
            exact map_of_struct_eq
              (fun w b => sem.scalar L1.activationType (weightedSum prevActs w + b)) hsmap
        cases hrec1 : forwardLayers sem false draws1 rest1
            (((M1.applyActivation sem).applyDropout false (draws1 i1)).getActivations)
            (i1 + 1) with
        | error e => rw [hrec1] at h; exact absurd h (by simp [Bind.bind, Except.bind])
        | ok ra =>
          rw [hrec1] at h
          simp only [except_ok_bind] at h
          obtain ⟨rb, hrb, hrbeq⟩ := ih rest2
            (((M1.applyActivation sem).applyDropout false (draws1 i1)).getActivations)
            (i1 + 1) (i2 + 1) ra hsigRest hrec1
          refine ⟨(((({ L2 with neurons := L2.neurons.map (fun n =>
              { n with weightedInput := weightedSum prevActs n.inputWeights }) } :
              Layer).applyActivation sem).applyDropout false (draws2 i2)) :: rb.1, rb.2),
            ?_, ?_⟩
          · rw [forwardLayers, hf2]
            simp only [except_ok_bind]
            rw [hacts, hrb]
            rfl
          · have h2 := congrArg Prod.snd (Except.ok.inj h)
            exact hrbeq.trans h2

theorem Layer.withActivationsSet_sig (L : Layer) (xs : List ℚ)
    (h : L.neurons.length ≤ xs.length) :
    (L.withActivationsSet xs).inferenceSig = L.inferenceSig := by
  rw [Layer.withActivationsSet, Layer.inferenceSig, Layer.inferenceSig]
  rw [zipWith_setActivation_map_struct L.neurons xs h]

theorem Layer.withActivationsSet_size (L : Layer) (xs : List ℚ)
    (h : L.neurons.length = xs.length) :
    (L.withActivationsSet xs).getSize = xs.length := by
  simp [Layer.withActivationsSet, Layer.getSize, h]

theorem NeuralNetwork.forward_nil (net : NeuralNetwork) (h : net.layers = [])
    (inputs : List ℚ) (sem : ActSem) (draws : Nat → Nat → ℚ) :
    net.forward inputs sem draws = .ok ([], net) := by
  rw [NeuralNetwork.forward, h]

/-- Inversion of `NeuralNetwork::forward`: a non-aborting run either took one
of the two empty-result branches leaving the network untouched, or set the
input layer activations and ran the pipeline from the input vector itself. -/
theorem NeuralNetwork.forward_inv (net : NeuralNetwork) (inputs : List ℚ) (sem : ActSem)
    (draws : Nat → Nat → ℚ) (r : List ℚ × NeuralNetwork)
    (h : net.forward inputs sem draws = .ok r) :
    ((net.layers = [] ∨ ∃ L0 rest, net.layers = L0 :: rest ∧ inputs.length ≠ L0.getSize) ∧
      r = ([], net)) ∨
    (∃ L0 rest ls2, net.layers = L0 :: rest ∧ inputs.length = L0.getSize ∧
      forwardLayers sem net.isTraining draws rest inputs 1 = .ok (ls2, r.1) ∧
      r.2 = { net with layers := L0.withActivationsSet inputs :: ls2 }) := by
  cases hlay : net.layers with
  | nil =>
    rw [NeuralNetwork.forward_nil net hlay] at h
    exact Or.inl ⟨Or.inl rfl, (Except.ok.inj h).symm⟩
  | cons L0 rest =>
    rw [NeuralNetwork.forward_cons net L0 rest hlay] at h
    by_cases hne : inputs.length ≠ L0.getSize
    · rw [if_pos hne] at h
      exact Or.inl ⟨Or.inr ⟨L0, rest, rfl, hne⟩, (Except.ok.inj h).symm⟩
    · have hlen : inputs.length = L0.getSize := not_not.mp hne
      rw [if_neg hne] at h
      rw [Layer.setActivations_ok L0 inputs (by simpa [Layer.getSize] using hlen)] at h
      simp only [except_ok_bind] at h
      rw [Layer.withActivationsSet_getActs L0 inputs
        (by simpa [Layer.getSize] using hlen)] at h
      cases hrec : forwardLayers sem net.isTraining draws rest inputs 1 with
      | error e => rw [hrec] at h; exact absurd h (by simp [Bind.bind, Except.bind])
      | ok rr =>
        rw [hrec] at h
        simp only [except_ok_bind] at h
        have hinj := Except.ok.inj h
        have h1 : rr.2 = r.1 := congrArg Prod.fst hinj
        have h2 := congrArg Prod.snd hinj
        refine Or.inr ⟨L0, rest, rr.1, rfl, hlen, ?_, ?_⟩
        · rw [hrec, ← h1]
        · rw [← h2]

/-- C4.  On every non-aborting run, `predict` restores the training-mode flag
to its value before the call and leaves every layer inference signature —
in particular every unit weight vector and bias — untouched; and a second
`predict` of the resulting network on the same input, with any dropout
oracle, succeeds and returns the identical output vector (dropout is forced
off inside `predict`, so the output is a function of weights, biases and
activation tags only). -/
theorem NeuralNetwork.predict_spec (net : NeuralNetwork) (inputs : List ℚ) (sem : ActSem)
    (draws : Nat → Nat → ℚ) (out : List ℚ) (net2 : NeuralNetwork)
    (hr : net.predict inputs sem draws = .ok (out, net2)) :
    net2.isTraining = net.isTraining ∧
      net2.layers.map Layer.inferenceSig = net.layers.map Layer.inferenceSig ∧
      ∀ draws2, ∃ net3, net2.predict inputs sem draws2 = .ok (out, net3) := by
  rw [NeuralNetwork.predict] at hr
  cases hf : NeuralNetwork.forward { net with isTraining := false } inputs sem draws with
  | error e => rw [hf] at hr; exact absurd hr (by simp [Bind.bind, Except.bind])
  | ok r =>
    rw [hf] at hr
    simp only [except_ok_bind] at hr
    have hinj := Except.ok.inj hr
    have hout : r.1 = out := congrArg Prod.fst hinj
    have hnet2 : { r.2 with isTraining := net.isTraining } = net2 := congrArg Prod.snd hinj
    rcases NeuralNetwork.forward_inv { net with isTraining := false } inputs sem draws r hf with
      ⟨hcase, hr0⟩ | ⟨L0, rest, ls2, hlay, hlen, hfwd, hr2⟩
    · have hr1 : r.1 = ([] : List ℚ) := congrArg Prod.fst hr0
      have hr2 : r.2 = { net with isTraining := false } := congrArg Prod.snd hr0
      have hnet2eq : net2 = net := by
        rw [← hnet2, hr2]
      have houteq : out = [] := by rw [← hout, hr1]
      refine ⟨by rw [hnet2eq], by rw [hnet2eq], ?_⟩
      intro draws2
      have hfwd2 : NeuralNetwork.forward { net with isTraining := false } inputs sem draws2 =
          .ok ([], { net with isTraining := false }) := by
        rcases hcase with hnil | ⟨L1, rest1, hlay1, hne1⟩
        · exact NeuralNetwork.forward_nil _ hnil inputs sem draws2
        · rw [NeuralNetwork.forward_cons { net with isTraining := false } L1 rest1 hlay1,
            if_pos hne1]
      refine ⟨net, ?_⟩
      rw [hnet2eq, houteq, NeuralNetwork.predict, hfwd2]
      rfl
    · have hfwdF : forwardLayers sem false draws rest inputs 1 = .ok (ls2, r.1) := hfwd
      have hnlen : L0.neurons.length = inputs.length := by
        simpa [Layer.getSize] using hlen.symm
      have hnet2rec : net2 = { net with layers := L0.withActivationsSet inputs :: ls2 } := by
        rw [← hnet2, hr2]
      have hsig0 : (L0.withActivationsSet inputs).inferenceSig = L0.inferenceSig :=
        Layer.withActivationsSet_sig L0 inputs (le_of_eq hnlen)
      have hsigrest : ls2.map Layer.inferenceSig = rest.map Layer.inferenceSig :=
        forwardLayers_sig sem false draws rest inputs 1 ls2 r.1 hfwdF
      have hlayN : net.layers = L0 :: rest := hlay
      refine ⟨by rw [hnet2rec], ?_, ?_⟩
      · rw [hnet2rec, hlayN]
        simp only [List.map_cons]
        rw [hsig0, hsigrest]
      · intro draws2
        have hsize0 : (L0.withActivationsSet inputs).getSize = inputs.length :=
          Layer.withActivationsSet_size L0 inputs hnlen
        have hlay2 : ({ net2 with isTraining := false } : NeuralNetwork).layers =
            L0.withActivationsSet inputs :: ls2 := by
          rw [show ({ net2 with isTraining := false } : NeuralNetwork).layers =
            net2.layers from rfl, hnet2rec]
        have hset2 := Layer.setActivations_ok (L0.withActivationsSet inputs) inputs
          (by rw [show (L0.withActivationsSet inputs).neurons.length =
            (L0.withActivationsSet inputs).getSize from rfl, hsize0])
        have hacts2 : ((L0.withActivationsSet inputs).withActivationsSet
            inputs).getActivations = inputs :=
          Layer.withActivationsSet_getActs _ inputs
            (by rw [show (L0.withActivationsSet inputs).neurons.length =
              (L0.withActivationsSet inputs).getSize from rfl, hsize0])
        obtain ⟨rb, hrb, hrbeq⟩ := forwardLayers_det sem draws draws2 rest ls2 inputs 1 1
          (ls2, r.1) hsigrest hfwdF
        have hrbout : rb.2 = out := hrbeq.trans hout
        exact ⟨_, by
          rw [NeuralNetwork.predict]
          rw [NeuralNetwork.forward_cons { net2 with isTraining := false } _ _ hlay2]
          rw [if_neg (by simp [hsize0])]
          rw [hset2]
          simp only [except_ok_bind]
          rw [hacts2, hrb]
          simp only [except_ok_bind]
          rw [hrbout]⟩

/-- Witness for C4 on the concrete 1-1 network: the run succeeds, weights,
biases and the flag survive, and a repeated call reproduces the output. -/
theorem NeuralNetwork.predict_spec_witness :
    ∃ out net2, goodNet11.predict [(0 : ℚ)] idActSem zeroDraws = .ok (out, net2) ∧
      (net2.isTraining = goodNet11.isTraining ∧
        net2.layers.map Layer.inferenceSig = goodNet11.layers.map Layer.inferenceSig ∧
        ∀ draws2, ∃ net3, net2.predict [(0 : ℚ)] idActSem draws2 = .ok (out, net3)) :=
  ⟨_, _, rfl, NeuralNetwork.predict_spec goodNet11 [(0 : ℚ)] idActSem zeroDraws _ _ rfl⟩

end NNV
